import Mathlib

/-!
Verification of the astrorank repository (rank/comment persistence,
coordinate parser, asinh stretch, secondary-image pipeline).

Shallow embedding conventions:
- Python strings are modelled as lists of characters (abbreviation Str).
- Python dicts are modelled either as assignment functions Str to Option
  values (for the in-memory maps fed to save_rankings) or as association
  lists built with dictInsert (for the maps produced by the loaders);
  dict equality is extensional equality of lookups.
- File contents are single character lists; reading a file line by line
  is modelled by splitting on the newline character.  Python line
  iteration of a text file yields the same stripped nonempty lines as
  splitting the content on the newline character, the only difference
  being a final empty chunk when the file ends in a newline, and that
  chunk is skipped by every loader.
- Python floats are modelled as exact rationals.  int() and float() are
  modelled on the ASCII inputs reachable at the embedded call sites
  (including the underscore digit grouping accepted by int()); the
  exponent, infinity and nan forms of float() cannot be produced by the
  regular expressions feeding the embedded calls and are omitted.
- Fallible operations return Option; a Python exception caught by the
  source and converted to a skip/None is the none branch.
-/

/-- Python strings, modelled as lists of characters. -/
abbrev Str := List Char

/-- The ASCII whitespace characters removed by the Python str.strip method. -/
def isPyWs (c : Char) : Bool :=
  c = ' ' || c = '\t' || c = '\n' || c = '\r' || c = '\x0b' || c = '\x0c'

/-- Remove leading Python whitespace. -/
def stripLeft (cs : Str) : Str := cs.dropWhile isPyWs

/-- Remove trailing Python whitespace. -/
def stripRight (cs : Str) : Str := (cs.reverse.dropWhile isPyWs).reverse

/-- The Python str.strip method (ASCII whitespace). -/
def pyStrip (cs : Str) : Str := stripRight (stripLeft cs)

/-- The Python str.split method with a single-character separator:
splits on every occurrence, keeping empty chunks, and yields one chunk
for the empty string. -/
def splitOnChar (sep : Char) : Str → List Str
  | [] => [[]]
  | c :: cs =>
    match splitOnChar sep cs with
    | [] => [[c]]
    | l :: ls => if c = sep then [] :: l :: ls else (c :: l) :: ls

/-- Python dict assignment d[k] = v on an association list:
replaces the value of an existing key, otherwise appends the key. -/
def dictInsert {α : Type} (k : Str) (v : α) : List (Str × α) → List (Str × α)
  | [] => [(k, v)]
  | (k2, v2) :: rest =>
    if k2 = k then (k, v) :: rest else (k2, v2) :: dictInsert k v rest

/-- Python dict lookup d.get(k) on an association list. -/
def dictLookup {α : Type} : List (Str × α) → Str → Option α
  | [], _ => none
  | (k2, v) :: rest, k => if k2 = k then some v else dictLookup rest k

/-- Numeric value of an ASCII digit character. -/
def dval (c : Char) : Nat := c.toNat - 48

/-- Left fold turning a digit list into its base-ten value. -/
def foldValue (acc : Nat) (ds : Str) : Nat :=
  ds.foldl (fun a c => a * 10 + dval c) acc

/-- Digits of a natural number, most significant first, via explicit fuel
so that the definition is structurally recursive and kernel reducible.
Fuel at least the number itself always suffices. -/
def natToCharsAux : Nat → Nat → Str
  | 0, _ => []
  | fuel + 1, n =>
    if n = 0 then [] else natToCharsAux fuel (n / 10) ++ [Char.ofNat (48 + n % 10)]

/-- Decimal rendering of a natural number, as produced by Python str(). -/
def natToChars (n : Nat) : Str := if n = 0 then ['0'] else natToCharsAux n n

/-- Decimal rendering of an integer, as produced by Python str()
inside the f-string writes of save_rankings. -/
def intToChars (k : Int) : Str :=
  if k < 0 then '-' :: natToChars k.natAbs else natToChars k.toNat

/-- Digit run with Python int() underscore grouping: a single underscore
may stand between two digits.  Processes the remaining characters after
a first digit has been consumed. -/
def parseUnsignedAux : Nat → Str → Option Nat
  | acc, [] => some acc
  | acc, c :: cs =>
    if c.isDigit then parseUnsignedAux (acc * 10 + dval c) cs
    else if c = '_' then
      match cs with
      | [] => none
      | c2 :: cs2 =>
        if c2.isDigit then parseUnsignedAux (acc * 10 + dval c2) cs2 else none
    else none

/-- Unsigned decimal literal as accepted by Python int() (ASCII digits,
optional single underscores between digits). -/
def parseUnsigned : Str → Option Nat
  | [] => none
  | c :: cs => if c.isDigit then parseUnsignedAux (dval c) cs else none

/-- The Python int() conversion on ASCII input: strips whitespace,
accepts an optional sign, then an unsigned decimal literal; any other
input raises ValueError, modelled as none. -/
def pyIntParse (cs : Str) : Option Int :=
  match pyStrip cs with
  | [] => none
  | c :: rest =>
    if c = '-' then (parseUnsigned rest).map (fun n => -(Int.ofNat n))
    else if c = '+' then (parseUnsigned rest).map Int.ofNat
    else (parseUnsigned (c :: rest)).map Int.ofNat

/-- Maximal digit prefix of a character list and the remaining suffix. -/
def takeDigits : Str → Str × Str
  | [] => ([], [])
  | c :: cs =>
    if c.isDigit then
      let p := takeDigits cs
      (c :: p.1, p.2)
    else ([], c :: cs)

/-- The Python float() conversion restricted to the plain decimal forms
reachable from the embedded call sites: optional sign, then digits with
an optional point and fraction (at least one digit overall).  Exponent,
infinity and nan spellings cannot reach the embedded calls because the
regular expressions feeding them only produce plain decimal tokens.
Floats are modelled as exact rationals. -/
def pyFloatParse (cs : Str) : Option ℚ :=
  let s := pyStrip cs
  let signBody : ℚ × Str :=
    match s with
    | '-' :: r => (-1, r)
    | '+' :: r => (1, r)
    | _ => (1, s)
  let body := signBody.2
  let ip := takeDigits body
  match ip.2 with
  | [] => if ip.1 = [] then none else some (signBody.1 * (foldValue 0 ip.1 : ℚ))
  | c :: r2 =>
    if c = '.' then
      let fp := takeDigits r2
      if fp.2 = [] ∧ (ip.1 ≠ [] ∨ fp.1 ≠ []) then
        some (signBody.1 *
          ((foldValue 0 ip.1 : ℚ) + (foldValue 0 fp.1 : ℚ) / 10 ^ fp.1.length))
      else none
    else none

/-!
## Ranking store (src/astrorank/utils.py)

load_rankings, save_rankings and the comment loader _load_comments of
src/astrorank/astrorank.py.  In-memory maps handed to save_rankings are
assignment functions; the loaders build Python dicts, modelled as
association lists via dictInsert.
-/

/-- One iteration of the load_rankings line loop: strip the line, skip
empty lines, split on tabs, take parts[0] as the filename, and record
int(parts[1]) when that conversion neither raises IndexError (missing
field) nor ValueError (unparseable field); otherwise continue. -/
def loadLine (acc : List (Str × Int)) (line : Str) : List (Str × Int) :=
  let l := pyStrip line
  if l = [] then acc
  else
    let parts := splitOnChar '\t' l
    match parts.get? 1 with
    | none => acc
    | some rankStr =>
      match pyIntParse rankStr with
      | none => acc
      | some k => dictInsert (parts.headD []) k acc

/-- The body of load_rankings applied to the lines of an existing file. -/
def loadRankingsLines (lines : List Str) : List (Str × Int) :=
  lines.foldl loadLine []

/-- load_rankings: a missing file (none) yields the empty dict, an
existing file is processed line by line. -/
def load_rankings (file : Option Str) : List (Str × Int) :=
  match file with
  | none => []
  | some content => loadRankingsLines (splitOnChar '\n' content)

/-- The rank field written for one identifier: str(rank) when the
identifier is ranked, the empty string otherwise. -/
def rankField (rankings : Str → Option Int) (id : Str) : Str :=
  match rankings id with
  | some k => intToChars k
  | none => []

/-- The rankings-file line written for one identifier. -/
def rankLine (rankings : Str → Option Int) (id : Str) : Str :=
  id ++ '\t' :: rankField rankings id

/-- save_rankings, first block: the content written to the rankings
file, one line per catalog identifier in catalog order, each line
identifier TAB rank with the rank field empty for unranked
identifiers. -/
def save_rankings (rankings : Str → Option Int) (jpg_files : List Str) : Str :=
  (jpg_files.map (fun id => rankLine rankings id ++ ['\n'])).flatten

/-- The comments-file line written for one identifier:
identifier TAB rank TAB comment, both fields rendered empty when
absent (comments.get(filename, "")). -/
def commentLine (rankings : Str → Option Int) (comments : Str → Option Str)
    (id : Str) : Str :=
  id ++ '\t' :: rankField rankings id ++ '\t' :: ((comments id).getD [])

/-- save_rankings, second block: the content written to the comments
companion file. -/
def save_comments (rankings : Str → Option Int) (comments : Str → Option Str)
    (jpg_files : List Str) : Str :=
  (jpg_files.map (fun id => commentLine rankings comments id ++ ['\n'])).flatten

/-- One iteration of the _load_comments line loop: strip, skip empty
lines and lines without a tab, split on tabs, and when there are at
least three fields store parts[2] under parts[0] if it is nonempty. -/
def loadCommentsLine (acc : List (Str × Str)) (line : Str) : List (Str × Str) :=
  let l := pyStrip line
  if l = [] then acc
  else if '\t' ∉ l then acc
  else
    let parts := splitOnChar '\t' l
    if 3 ≤ parts.length then
      let comment := parts.getD 2 []
      if comment = [] then acc else dictInsert (parts.headD []) comment acc
    else acc

/-- _load_comments of astrorank.py: a missing companion file leaves the
comment dict empty, an existing one is processed line by line. -/
def load_comments (file : Option Str) : List (Str × Str) :=
  match file with
  | none => []
  | some content => (splitOnChar '\n' content).foldl loadCommentsLine []

/-- is_valid_rank of utils.py.  When the rank map is truthy (nonempty;
a None map and an empty map behave identically) the stripped input must
be one of its keys; otherwise the stripped input must be an int between
min_rank and max_rank.  Returns the (is_valid, rank_value) pair. -/
def is_valid_rank (rank_str : Str) (min_rank max_rank : Int)
    (rank_map : List (Str × Int)) : Bool × Option Int :=
  let s := pyStrip rank_str
  if rank_map ≠ [] then
    match dictLookup rank_map s with
    | some v => (true, some v)
    | none => (false, none)
  else
    match pyIntParse s with
    | some k => if min_rank ≤ k ∧ k ≤ max_rank then (true, some k) else (false, none)
    | none => (false, none)

/-!
## Interactive session (src/astrorank/astrorank.py)

The mutable fields of the main window that the persistence claims are
about, as an explicit state record: the catalog, the in-memory rank and
comment dicts, the batch counter, and the two on-disk files (none while
the file has never been written in this session).
-/

/-- Session state: catalog list, in-memory maps, batch save counter,
rank validation configuration, and the two persisted files. -/
structure SessionState where
  jpgFiles : List Str
  rankings : Str → Option Int
  comments : Str → Option Str
  saveCounter : Nat
  minRank : Int
  maxRank : Int
  rankConfig : List (Str × Int)
  fileRank : Option Str
  fileComments : Option Str

/-- The state after a save_rankings call that passes the in-memory
comments (the batch save of submit_rank and the close save). -/
def sessionSave (s : SessionState) : SessionState :=
  { s with
    fileRank := some (save_rankings s.rankings s.jpgFiles)
    fileComments := some (save_comments s.rankings s.comments s.jpgFiles) }

/-- submit_rank after successful validation (astrorank.py lines
1058-1066): record the rank in the in-memory dict immediately,
increment the batch counter, and write both files only when the counter
reaches 10, resetting it. -/
def submit_rank_value (s : SessionState) (id : Str) (v : Int) : SessionState :=
  let s1 := { s with
    rankings := fun x => if x = id then some v else s.rankings x
    saveCounter := s.saveCounter + 1 }
  if 10 ≤ s1.saveCounter then sessionSave { s1 with saveCounter := 0 } else s1

/-- submit_rank (astrorank.py lines 1042-1070): validate the typed
input with is_valid_rank; an invalid input returns False after a
warning dialog, leaving every field unchanged; a valid one stores the
mapped rank value.  is_valid_rank never returns true without a value;
that unreachable combination is mapped to the unchanged state. -/
def submit_rank (s : SessionState) (id : Str) (rank_str : Str) :
    Bool × SessionState :=
  match is_valid_rank rank_str s.minRank s.maxRank s.rankConfig with
  | (false, _) => (false, s)
  | (true, some v) => (true, submit_rank_value s id v)
  | (true, none) => (true, s)

/-- clear_rank (astrorank.py lines 1291-1300): when the current
identifier is ranked, delete its entry and save immediately; the call
site passes no comments argument, so save_rankings runs with the empty
comment dict.  An unranked identifier is a no-op. -/
def clear_rank (s : SessionState) (id : Str) : SessionState :=
  if (s.rankings id).isSome then
    let r := fun x => if x = id then none else s.rankings x
    { s with
      rankings := r
      fileRank := some (save_rankings r s.jpgFiles)
      fileComments := some (save_comments r (fun _ => none) s.jpgFiles) }
  else s

/-- closeEvent (astrorank.py lines 1529-1532): a final save_rankings
with the in-memory comments, regardless of the batch counter. -/
def closeEvent (s : SessionState) : SessionState := sessionSave s

/-!
## Coordinate parser (src/astrorank/utils.py lines 175-373)

parse_radec_from_filename searches the extension-stripped filename for
the sexagesimal regular expression (six digits, an optional greedy
fraction, a sign character, six digits, an optional greedy fraction)
and, failing that, takes the last of the non-overlapping matches of the
decimal regular expression (underscore, optionally signed decimal
token, underscore, optionally signed decimal token).  The two regular
expressions are embedded directly as matching functions; the searches
are leftmost and the fraction groups are greedy, exactly as re.search
and re.finditer behave on these patterns (the only backtracking these
patterns can perform is dropping the whole optional fraction of the
first group, which the matcher reproduces).
-/

/-- filename.rsplit with a period and maxsplit one, first component:
everything before the last period, or the whole string if none. -/
def nameWithoutExt (cs : Str) : Str :=
  if '.' ∈ cs then ((cs.reverse.dropWhile (fun c => c != '.')).tail).reverse else cs

/-- Match the second sexagesimal group at the start of the input: six
digits followed by an optional greedy fraction.  Nothing follows this
group in the pattern, so no backtracking is possible. -/
def sexAfterSign (cs : Str) : Option Str :=
  let d6 := cs.take 6
  if d6.length = 6 ∧ d6.all Char.isDigit then
    match cs.drop 6 with
    | '.' :: r2 =>
      let p := takeDigits r2
      if p.1 = [] then some d6 else some (d6 ++ '.' :: p.1)
    | _ => some d6
  else none

/-- After the first sexagesimal group, require the sign character and
the second group; returns (first group, sign, second group). -/
def sexFinish (ra : Str) (rest : Str) : Option (Str × Char × Str) :=
  match rest with
  | [] => none
  | c :: r2 =>
    if c = '+' ∨ c = '-' then
      match sexAfterSign r2 with
      | some dec => some (ra, c, dec)
      | none => none
    else none

/-- Match the sexagesimal pattern anchored at the start of the input.
The optional fraction of the first group is greedy: the fraction
variant is attempted first and the fraction is dropped entirely when
the sign fails to follow it. -/
def matchSexAt (cs : Str) : Option (Str × Char × Str) :=
  let d6 := cs.take 6
  if d6.length = 6 ∧ d6.all Char.isDigit then
    let rest := cs.drop 6
    let withFrac : Option (Str × Char × Str) :=
      match rest with
      | '.' :: r2 =>
        let p := takeDigits r2
        if p.1 = [] then none else sexFinish (d6 ++ '.' :: p.1) p.2
      | _ => none
    match withFrac with
    | some res => some res
    | none => sexFinish d6 rest
  else none

/-- re.search for the sexagesimal pattern: leftmost match wins. -/
def searchSex : Str → Option (Str × Char × Str)
  | [] => none
  | c :: cs =>
    match matchSexAt (c :: cs) with
    | some r => some r
    | none => searchSex cs

/-- sexagesimal_to_decimal of utils.py: hours, minutes, seconds for
right ascension (converted to degrees by multiplying by fifteen) and
signed degrees, arcminutes, arcseconds for declination.  int() or
float() conversion failures and the length guards are the none
branches; no range validation is performed here. -/
def sexagesimal_to_decimal (ra_str dec_str : Str) : Option (ℚ × ℚ) :=
  let ra := pyStrip ra_str
  if ra.length < 6 then none
  else
    match pyIntParse (ra.take 2), pyIntParse ((ra.drop 2).take 2),
        pyFloatParse (ra.drop 4) with
    | some hh, some mm, some ss =>
      let ra_decimal : ℚ := ((hh : ℚ) + (mm : ℚ) / 60 + ss / 3600) * 15
      let d0 := pyStrip dec_str
      if d0.length < 7 then none
      else
        let sign : ℚ := if d0.headD ' ' = '-' then -1 else 1
        let d1 := if d0.headD ' ' = '-' ∨ d0.headD ' ' = '+' then d0.tail else d0
        if d1.length < 6 then none
        else
          match pyIntParse (d1.take 2), pyIntParse ((d1.drop 2).take 2),
              pyFloatParse (d1.drop 4) with
          | some dd, some dmm, some dss =>
            some (ra_decimal, sign * ((dd : ℚ) + (dmm : ℚ) / 60 + dss / 3600))
          | _, _, _ => none
    | _, _, _ => none

/-- Match one decimal token, an optionally negated digit run with an
optional point and further digits, maximal munch; returns the token
and the remaining input. -/
def numToken (cs : Str) : Option (Str × Str) :=
  let nb : Bool × Str :=
    match cs with
    | '-' :: r => (true, r)
    | _ => (false, cs)
  let d := takeDigits nb.2
  if d.1 = [] then none
  else
    let td : Str × Str :=
      match d.2 with
      | '.' :: r3 =>
        let f := takeDigits r3
        (d.1 ++ '.' :: f.1, f.2)
      | _ => (d.1, d.2)
    some ((if nb.1 then '-' :: td.1 else td.1), td.2)

/-- Match the decimal coordinate pattern anchored at the start of the
input: underscore, token, underscore, token; returns both captured
groups and the input remaining after the match. -/
def matchDecAt : Str → Option (Str × Str × Str)
  | '_' :: rest =>
    (match numToken rest with
    | some (g1, r1) =>
      match r1 with
      | '_' :: r2 =>
        (match numToken r2 with
        | some (g2, r3) => some (g1, g2, r3)
        | none => none)
      | _ => none
    | none => none)
  | _ => none

/-- re.finditer for the decimal pattern: leftmost, non-overlapping
matches; scanning resumes after the end of each match.  Fuel bounds
the recursion; the input length always suffices because every step
consumes at least one character. -/
def findIterDecAux : Nat → Str → List (Str × Str)
  | 0, _ => []
  | _ + 1, [] => []
  | fuel + 1, c :: cs =>
    match matchDecAt (c :: cs) with
    | some (g1, g2, rest) => (g1, g2) :: findIterDecAux fuel rest
    | none => findIterDecAux fuel cs

/-- All non-overlapping decimal-pattern matches of the input. -/
def findIterDec (cs : Str) : List (Str × Str) := findIterDecAux cs.length cs

/-- The decimal branch of parse_radec_from_filename: use the last
finditer match, convert both groups with float(), and range-check
0 to 360 for right ascension and -90 to 90 for declination; a failed
conversion or range check yields none. -/
def tryDecimal (name : Str) : Option (ℚ × ℚ) :=
  match (findIterDec name).getLast? with
  | none => none
  | some (g1, g2) =>
    match pyFloatParse g1, pyFloatParse g2 with
    | some ra, some dec =>
      if 0 ≤ ra ∧ ra ≤ 360 ∧ -90 ≤ dec ∧ dec ≤ 90 then some (ra, dec) else none
    | _, _ => none

/-- parse_radec_from_filename of utils.py: strip the extension, try
the sexagesimal pattern first (the matched sign character is prepended
to the declination string, exactly as the source reads the character
before the second group), and fall back to the decimal pattern when
there is no sexagesimal match or sexagesimal_to_decimal returns None.
The sexagesimal result is returned without any range validation. -/
def parse_radec_from_filename (filename : Str) : Option (ℚ × ℚ) :=
  let name := nameWithoutExt filename
  match searchSex name with
  | some (ra_str, sign, dec_str) =>
    (match sexagesimal_to_decimal ra_str (sign :: dec_str) with
    | some r => some r
    | none => tryDecimal name)
  | none => tryDecimal name

/-!
## Asinh stretch (src/astrorank/utils.py lines 534-573 and
src/download_jpg.py lines 32-74; both copies are identical)

A layer is a flattened list of pixels; a nan pixel is the none value
and np.where(np.isnan(data), 0, data) maps it to zero.  np.sort is
modelled by insertion sort (the sorted permutation is unique), and
np.percentile by its default linear interpolation, both over exact
rationals.  The arcsinh map x to arcsinh(Q x) / arcsinh(Q) with Q = 8
is transcendental and has no exact rational form, so the scaling is
parametrized by the stretch function it applies between the two clips;
every property claimed of the scaling holds for an arbitrary stretch
because the result is clipped to the unit interval afterwards.
-/

/-- np.clip for a single rational value. -/
def clipQ (x lo hi : ℚ) : ℚ := min (max x lo) hi

/-- Insertion step for the sort. -/
def insertSortedQ (x : ℚ) : List ℚ → List ℚ
  | [] => [x]
  | y :: ys => if x ≤ y then x :: y :: ys else y :: insertSortedQ x ys

/-- np.sort, modelled by insertion sort. -/
def sortQ (l : List ℚ) : List ℚ := l.foldr insertSortedQ []

/-- np.percentile with the default linear interpolation, on an already
sorted nonempty list (an empty list yields zero; numpy raises there,
but the source only calls this on a nonempty list). -/
def percentileQ (s : List ℚ) (p : ℚ) : ℚ :=
  match s with
  | [] => 0
  | _ :: _ =>
    let idx : ℚ := p / 100 * ((s.length : ℚ) - 1)
    let lo := (⌊idx⌋).toNat
    let hi := (⌈idx⌉).toNat
    s.getD lo 0 + (idx - (⌊idx⌋ : ℚ)) * (s.getD hi 0 - s.getD lo 0)

/-- apply_asinh_scaling: an empty layer returns the empty layer; a
layer with no positive pixel (after nan replacement) returns the
all-zero layer before any division; otherwise clip to the first and
ninety-ninth percentile of the positive pixels (falling back to their
minimum and maximum when the percentiles coincide), normalize, clip to
the unit interval, apply the stretch, clip again, scale by 255 and
truncate to an unsigned byte.  Division by an exactly zero range
(which in numpy produces nan values and a warning, not an exception)
is the rational convention division by zero equals zero; the clips
make every claimed bound independent of that convention. -/
def apply_asinh_scaling (stretch : ℚ → ℚ) (data : List (Option ℚ)) : List ℕ :=
  if data.length = 0 then []
  else
    let data_clean := data.map (fun x => x.getD 0)
    let flat_sorted := sortQ (data_clean.filter (fun x => decide (0 < x)))
    if flat_sorted = [] then data_clean.map (fun _ => 0)
    else
      let vmin0 := percentileQ flat_sorted 1
      let vmax0 := percentileQ flat_sorted 99
      let vmin := if vmin0 = vmax0 then flat_sorted.headD 0 else vmin0
      let vmax := if vmin0 = vmax0 then flat_sorted.getLastD 0 else vmax0
      data_clean.map (fun x =>
        let normalized := (x - vmin) / (vmax - vmin)
        let n2 := clipQ normalized 0 1
        let scaled := clipQ (stretch n2) 0 1
        (⌊scaled * 255⌋).toNat)

/-!
## Secondary image download (src/astrorank/utils.py lines 440-615)

The effectful skeleton of download_secondary_image, with the file
system as explicit state (the set of existing paths) and the network
interaction as a parameter.  A network failure stands for a connection
error, a timeout, or a bad HTTP status raised by raise_for_status; all
of these raise before the temporary FITS file is written and are
caught by the enclosing except block, which returns None.  On a
received response the temporary FITS file is written, the shape of the
parsed array is checked (three dimensions, or two with an implicit
layer added); a wrong shape unlinks the temporary file and returns
None.  Otherwise the scaling, compositing and flip are pure
computations, the JPEG is saved, the temporary file is unlinked and
the output path returned.
-/

/-- The paths currently existing on disk. -/
structure FileSystem where
  files : List Str

/-- Writing a file creates its path if new. -/
def fsCreate (p : Str) (fs : FileSystem) : FileSystem :=
  if p ∈ fs.files then fs else ⟨p :: fs.files⟩

/-- Path.unlink removes the path. -/
def fsRemove (p : Str) (fs : FileSystem) : FileSystem := ⟨fs.files.erase p⟩

/-- Result of the requests.get call plus raise_for_status: either a
failure (connection error, timeout, HTTP error status) or a response
whose FITS payload parses to an array of the given shape. -/
inductive NetResult where
  | failure
  | success (shape : List Nat)

/-- download_secondary_image: returns the output path on success and
None on failure, threading the file-system state. -/
def download_secondary_image (net : NetResult) (fits_path output_path : Str)
    (fs : FileSystem) : Option Str × FileSystem :=
  match net with
  | .failure => (none, fs)
  | .success shape =>
    let fs1 := fsCreate fits_path fs
    if shape.length = 3 ∨ shape.length = 2 then
      let fs2 := fsCreate output_path fs1
      let fs3 := fsRemove fits_path fs2
      (some output_path, fs3)
    else
      (none, fsRemove fits_path fs1)

/-!
## Well-formedness used by the persistence round-trip statements
-/

/-- An identifier survives the tab-separated line format: nonempty, no
tab (the field separator), no newline or carriage return (the line
separators of the text file), and no leading or trailing whitespace
(the loaders strip each line). -/
def wf_id (id : Str) : Prop :=
  id ≠ [] ∧ '\t' ∉ id ∧ '\n' ∉ id ∧ '\r' ∉ id ∧
  isPyWs (id.headD ' ') = false ∧ isPyWs (id.getLastD ' ') = false

/-- A comment survives the comments-file format: nonempty (the loader
only stores truthy comments), no tab, newline or carriage return, and
no trailing whitespace (the comment ends the stripped line; leading
whitespace is interior to the line and survives). -/
def wf_comment (c : Str) : Prop :=
  c ≠ [] ∧ '\t' ∉ c ∧ '\n' ∉ c ∧ '\r' ∉ c ∧ isPyWs (c.getLastD ' ') = false

instance (id : Str) : Decidable (wf_id id) := by
  unfold wf_id
  infer_instance

instance (c : Str) : Decidable (wf_comment c) := by
  unfold wf_comment
  infer_instance

/-!
## Basic lemmas about the text utilities
-/

theorem splitOnChar_ne_nil (sep : Char) (cs : Str) : splitOnChar sep cs ≠ [] := by
  cases cs with
  | nil => simp [splitOnChar]
  | cons c cs =>
    simp only [splitOnChar]
    split
    · simp
    · split <;> simp

theorem splitOnChar_of_not_mem {sep : Char} {cs : Str} (h : sep ∉ cs) :
    splitOnChar sep cs = [cs] := by
  induction cs with
  | nil => rfl
  | cons c cs ih =>
    have hc : ¬(c = sep) := fun e => h (by simp [e])
    have hcs : sep ∉ cs := fun m => h (List.mem_cons_of_mem _ m)
    simp [splitOnChar, ih hcs, hc]

theorem splitOnChar_append {sep : Char} {xs : Str} (ys : Str) (h : sep ∉ xs) :
    splitOnChar sep (xs ++ sep :: ys) = xs :: splitOnChar sep ys := by
  induction xs with
  | nil =>
    simp only [List.nil_append, splitOnChar]
    rcases hy : splitOnChar sep ys with _ | ⟨l, ls⟩
    · exact absurd hy (splitOnChar_ne_nil sep ys)
    · simp
  | cons c xs ih =>
    have hc : ¬(c = sep) := fun e => h (by simp [e])
    have hxs : sep ∉ xs := fun m => h (List.mem_cons_of_mem _ m)
    simp [splitOnChar, ih hxs, hc]

theorem splitOnChar_flatten {sep : Char} {ls : List Str}
    (h : ∀ l ∈ ls, sep ∉ l) :
    splitOnChar sep ((ls.map (fun l => l ++ [sep])).flatten) = ls ++ [[]] := by
  induction ls with
  | nil => rfl
  | cons l ls ih =>
    have heq : (l ++ [sep]) ++ (ls.map (fun l => l ++ [sep])).flatten
        = l ++ sep :: (ls.map (fun l => l ++ [sep])).flatten := by simp
    simp only [List.map_cons, List.flatten_cons, heq,
      splitOnChar_append _ (h l (by simp)),
      ih (fun x hx => h x (by simp [hx])), List.cons_append]

theorem getLast?_eq_getLastD {cs : Str} (h : cs ≠ []) (d : Char) :
    cs.getLast? = some (cs.getLastD d) := by
  induction cs generalizing d with
  | nil => exact absurd rfl h
  | cons c t ih =>
    cases t with
    | nil => rfl
    | cons c2 t2 =>
      rw [List.getLast?_cons_cons, List.getLastD_cons]
      exact ih (by simp) c

theorem getLastD_mem {cs : Str} (h : cs ≠ []) (d : Char) : cs.getLastD d ∈ cs := by
  induction cs generalizing d with
  | nil => exact absurd rfl h
  | cons c t ih =>
    cases t with
    | nil => simp
    | cons c2 t2 =>
      rw [List.getLastD_cons]
      exact List.mem_cons_of_mem _ (ih (by simp) c)

theorem stripLeft_of_head {c : Char} {cs : Str} (h : isPyWs c = false) :
    stripLeft (c :: cs) = c :: cs := by
  simp [stripLeft, List.dropWhile_cons, h]

theorem stripRight_append_ws {cs : Str} {c : Char} (h : isPyWs c = true) :
    stripRight (cs ++ [c]) = stripRight cs := by
  simp [stripRight, List.dropWhile_cons, h]

theorem stripRight_of_getLast {cs : Str} {c : Char} (hl : cs.getLast? = some c)
    (h : isPyWs c = false) : stripRight cs = cs := by
  unfold stripRight
  rcases hr : cs.reverse with _ | ⟨c2, t⟩
  · rw [List.reverse_eq_nil_iff] at hr
    subst hr; simp at hl
  · have hc2 : c2 = c := by
      have hh : cs.reverse.head? = cs.getLast? := List.head?_reverse cs
      rw [hr, hl] at hh
      simpa using hh
    subst hc2
    rw [List.dropWhile_cons, if_neg (by simp [h]), ← hr, List.reverse_reverse]

theorem pyStrip_eq_self {cs : Str} (h0 : cs ≠ [])
    (h1 : isPyWs (cs.headD ' ') = false)
    (h2 : isPyWs (cs.getLastD ' ') = false) : pyStrip cs = cs := by
  obtain ⟨c, t, rfl⟩ := List.exists_cons_of_ne_nil h0
  unfold pyStrip
  rw [stripLeft_of_head (by simpa using h1)]
  exact stripRight_of_getLast (getLast?_eq_getLastD (by simp) ' ') h2

/-!
## Lemmas about decimal rendering and int() parsing
-/

theorem digitChar_spec : ∀ m, m < 10 →
    (Char.ofNat (48 + m)).isDigit = true ∧ dval (Char.ofNat (48 + m)) = m := by
  decide

theorem isPyWs_of_isDigit {c : Char} (h : c.isDigit = true) : isPyWs c = false := by
  by_contra hw
  simp only [Bool.not_eq_false] at hw
  simp only [isPyWs, Bool.or_eq_true, decide_eq_true_eq] at hw
  rcases hw with ((((rfl | rfl) | rfl) | rfl) | rfl) | rfl <;> exact absurd h (by decide)

theorem ne_of_isDigit {c c2 : Char} (h : c.isDigit = true) (h2 : c2.isDigit = false) :
    c ≠ c2 := by
  intro e; rw [e, h2] at h; exact Bool.false_ne_true h

theorem natToCharsAux_digits : ∀ fuel n : Nat, n ≤ fuel →
    ∀ c ∈ natToCharsAux fuel n, c.isDigit = true := by
  intro fuel
  induction fuel with
  | zero => intro n h c hc; simp [natToCharsAux] at hc
  | succ f ih =>
    intro n h c hc
    by_cases h0 : n = 0
    · simp [natToCharsAux, h0] at hc
    · rw [natToCharsAux, if_neg h0] at hc
      rcases List.mem_append.mp hc with hc | hc
      · have hdiv : n / 10 ≤ f := by
          have := Nat.div_lt_self (Nat.pos_of_ne_zero h0) (by norm_num : 1 < 10)
          omega
        exact ih (n / 10) hdiv c hc
      · have hm : c = Char.ofNat (48 + n % 10) := by simpa using hc
        rw [hm]
        exact (digitChar_spec (n % 10) (Nat.mod_lt _ (by norm_num))).1

theorem natToChars_digits (n : Nat) : ∀ c ∈ natToChars n, c.isDigit = true := by
  intro c hc
  by_cases h0 : n = 0
  · simp [natToChars, h0] at hc
    rw [hc]; decide
  · rw [natToChars, if_neg h0] at hc
    exact natToCharsAux_digits n n le_rfl c hc

theorem foldValue_cons (acc : Nat) (c : Char) (cs : Str) :
    foldValue acc (c :: cs) = foldValue (acc * 10 + dval c) cs := by
  simp [foldValue]

theorem foldValue_natToCharsAux : ∀ fuel n acc : Nat, n ≤ fuel →
    foldValue acc (natToCharsAux fuel n)
      = acc * 10 ^ (natToCharsAux fuel n).length + n := by
  intro fuel
  induction fuel with
  | zero =>
    intro n acc h
    have h0 : n = 0 := Nat.le_zero.mp h
    simp [natToCharsAux, foldValue, h0]
  | succ f ih =>
    intro n acc h
    by_cases h0 : n = 0
    · simp [natToCharsAux, foldValue, h0]
    · rw [natToCharsAux, if_neg h0]
      have hdiv : n / 10 ≤ f := by
        have := Nat.div_lt_self (Nat.pos_of_ne_zero h0) (by norm_num : 1 < 10)
        omega
      rw [foldValue, List.foldl_append]
      have hposed := ih (n / 10) acc hdiv
      rw [foldValue] at hposed
      simp only [List.foldl_cons, List.foldl_nil]
      rw [hposed]
      have hd : dval (Char.ofNat (48 + n % 10)) = n % 10 :=
        (digitChar_spec (n % 10) (Nat.mod_lt _ (by norm_num))).2
      rw [hd, List.length_append, List.length_singleton, pow_succ]
      have hmod : n / 10 * 10 + n % 10 = n := Nat.div_add_mod n 10 ▸ by omega
      ring_nf
      omega

theorem parseUnsignedAux_digits {ds : Str} (h : ∀ c ∈ ds, c.isDigit = true) :
    ∀ acc : Nat, parseUnsignedAux acc ds = some (foldValue acc ds) := by
  induction ds with
  | nil => intro acc; simp [parseUnsignedAux, foldValue]
  | cons c cs ih =>
    intro acc
    have hc := h c (by simp)
    have step : parseUnsignedAux acc (c :: cs)
        = parseUnsignedAux (acc * 10 + dval c) cs := by
      rw [parseUnsignedAux.eq_def]
      simp [hc]
    rw [step, foldValue_cons]
    exact ih (fun x hx => h x (by simp [hx])) _

theorem parseUnsigned_of_digits {ds : Str} (h0 : ds ≠ [])
    (h : ∀ c ∈ ds, c.isDigit = true) :
    parseUnsigned ds = some (foldValue 0 ds) := by
  obtain ⟨c, t, rfl⟩ := List.exists_cons_of_ne_nil h0
  rw [parseUnsigned, if_pos (h c (by simp)), foldValue_cons]
  simpa using parseUnsignedAux_digits (fun x hx => h x (by simp [hx])) (dval c)

theorem natToChars_ne_nil (n : Nat) : natToChars n ≠ [] := by
  by_cases h0 : n = 0
  · simp [natToChars, h0]
  · rw [natToChars, if_neg h0]
    obtain ⟨m, rfl⟩ := Nat.exists_eq_succ_of_ne_zero h0
    rw [natToCharsAux, if_neg h0]
    simp

theorem foldValue_natToChars (n : Nat) : foldValue 0 (natToChars n) = n := by
  by_cases h0 : n = 0
  · simp [natToChars, h0, foldValue, dval]
  · rw [natToChars, if_neg h0]
    have := foldValue_natToCharsAux n n 0 le_rfl
    simpa using this

theorem parseUnsigned_natToChars (n : Nat) : parseUnsigned (natToChars n) = some n := by
  rw [parseUnsigned_of_digits (natToChars_ne_nil n) (natToChars_digits n),
    foldValue_natToChars]

theorem intToChars_ne_nil (k : Int) : intToChars k ≠ [] := by
  unfold intToChars
  split
  · simp
  · exact natToChars_ne_nil _

theorem intToChars_mem {k : Int} {c : Char} (h : c ∈ intToChars k) :
    c.isDigit = true ∨ c = '-' := by
  unfold intToChars at h
  split at h
  · rcases List.mem_cons.mp h with rfl | h
    · exact Or.inr rfl
    · exact Or.inl (natToChars_digits _ c h)
  · exact Or.inl (natToChars_digits _ c h)

theorem intToChars_not_ws {k : Int} {c : Char} (h : c ∈ intToChars k) :
    isPyWs c = false := by
  rcases intToChars_mem h with hd | rfl
  · exact isPyWs_of_isDigit hd
  · decide

theorem intToChars_not_tab {k : Int} : '\t' ∉ intToChars k := by
  intro h
  rcases intToChars_mem h with hd | he
  · exact absurd hd (by decide)
  · exact absurd he (by decide)

theorem intToChars_not_newline {k : Int} : '\n' ∉ intToChars k := by
  intro h
  rcases intToChars_mem h with hd | he
  · exact absurd hd (by decide)
  · exact absurd he (by decide)

theorem pyStrip_intToChars (k : Int) : pyStrip (intToChars k) = intToChars k := by
  refine pyStrip_eq_self (intToChars_ne_nil k) ?_ ?_
  · obtain ⟨c, t, he⟩ := List.exists_cons_of_ne_nil (intToChars_ne_nil k)
    rw [he]
    exact intToChars_not_ws (by rw [he]; simp)
  · exact intToChars_not_ws (getLastD_mem (intToChars_ne_nil k) ' ')

theorem pyIntParse_intToChars (k : Int) : pyIntParse (intToChars k) = some k := by
  by_cases hneg : k < 0
  · have step : pyIntParse (intToChars k)
        = (parseUnsigned (natToChars k.natAbs)).map (fun n => -(Int.ofNat n)) := by
      unfold pyIntParse
      rw [pyStrip_intToChars, intToChars, if_pos hneg]
      rfl
    rw [step, parseUnsigned_natToChars]
    simp only [Option.map_some', Option.some.injEq, Int.ofNat_eq_natCast]
    omega
  · obtain ⟨c, t, he⟩ := List.exists_cons_of_ne_nil (natToChars_ne_nil k.toNat)
    have hc : c.isDigit = true := natToChars_digits _ c (by rw [he]; simp)
    have hne1 : ¬(c = '-') := ne_of_isDigit hc (by decide)
    have hne2 : ¬(c = '+') := ne_of_isDigit hc (by decide)
    have step : pyIntParse (intToChars k) = (parseUnsigned (c :: t)).map Int.ofNat := by
      unfold pyIntParse
      rw [pyStrip_intToChars, intToChars, if_neg hneg, he]
      simp [hne1, hne2]
    rw [step, ← he, parseUnsigned_natToChars]
    simp only [Option.map_some', Option.some.injEq, Int.ofNat_eq_natCast]
    omega

/-!
## Dict lemmas
-/

theorem dictLookup_insert {α : Type} (m : List (Str × α)) (k k2 : Str) (v : α) :
    dictLookup (dictInsert k v m) k2 = if k = k2 then some v else dictLookup m k2 := by
  induction m with
  | nil => simp [dictInsert, dictLookup]
  | cons p rest ih =>
    obtain ⟨k3, v3⟩ := p
    by_cases h3 : k3 = k
    · subst h3
      rw [dictInsert, if_pos rfl]
      by_cases h2 : k3 = k2
      · subst h2; simp [dictLookup]
      · simp [dictLookup, h2]
    · rw [dictInsert, if_neg h3]
      by_cases h2 : k3 = k2
      · subst h2
        have hk : ¬(k = k3) := fun e => h3 e.symm
        simp [dictLookup, hk]
      · simp [dictLookup, h2, ih]

/-!
## Line-level lemmas for the persistence round trip
-/

theorem pyStrip_eq_self2 {cs : Str} {c0 cl : Char} (hh : cs.head? = some c0)
    (h1 : isPyWs c0 = false) (hl : cs.getLast? = some cl) (h2 : isPyWs cl = false) :
    pyStrip cs = cs := by
  rcases cs with _ | ⟨c, t⟩
  · simp at hh
  · have hc : c = c0 := by simpa using hh
    subst hc
    unfold pyStrip
    rw [stripLeft_of_head h1]
    exact stripRight_of_getLast hl h2

theorem getLast?_append_right {ys : Str} (xs : Str) (h : ys ≠ []) :
    (xs ++ ys).getLast? = ys.getLast? := by
  induction xs with
  | nil => rfl
  | cons c cs ih =>
    rw [List.cons_append]
    have hne : cs ++ ys ≠ [] := fun he => h (List.append_eq_nil.mp he).2
    obtain ⟨y, t, he⟩ := List.exists_cons_of_ne_nil hne
    rw [he, List.getLast?_cons_cons, ← he, ih]

theorem head?_append_left {xs : Str} (ys : Str) (h : xs ≠ []) :
    (xs ++ ys).head? = xs.head? := by
  obtain ⟨c, t, rfl⟩ := List.exists_cons_of_ne_nil h
  rfl

/-- The stripped ranked line: identifier, tab, decimal rank. -/
theorem pyStrip_id_tab_int {id : Str} (hid : wf_id id) (k : Int) :
    pyStrip (id ++ '\t' :: intToChars k) = id ++ '\t' :: intToChars k := by
  obtain ⟨hne, _, _, _, hhd, _⟩ := hid
  have hlmem : (intToChars k).getLastD ' ' ∈ intToChars k :=
    getLastD_mem (intToChars_ne_nil k) ' '
  have h2 : isPyWs ((intToChars k).getLastD ' ') = false := intToChars_not_ws hlmem
  have hl : (id ++ '\t' :: intToChars k).getLast?
      = some ((intToChars k).getLastD ' ') := by
    rw [getLast?_append_right id (by simp)]
    obtain ⟨c2, t2, he⟩ := List.exists_cons_of_ne_nil (intToChars_ne_nil k)
    rw [he, List.getLast?_cons_cons, ← he]
    exact getLast?_eq_getLastD (intToChars_ne_nil k) ' '
  obtain ⟨c, t, rfl⟩ := List.exists_cons_of_ne_nil hne
  exact pyStrip_eq_self2 rfl (by simpa using hhd) hl h2

/-- The stripped unranked line: the trailing tab is stripped away. -/
theorem pyStrip_id_tab {id : Str} (hid : wf_id id) :
    pyStrip (id ++ ['\t']) = id := by
  obtain ⟨hne, _, _, _, hhd, hlast⟩ := hid
  obtain ⟨c, t, rfl⟩ := List.exists_cons_of_ne_nil hne
  unfold pyStrip
  rw [List.cons_append, stripLeft_of_head (by simpa using hhd), ← List.cons_append,
    stripRight_append_ws (by decide)]
  exact stripRight_of_getLast (getLast?_eq_getLastD (by simp) ' ') hlast

theorem splitOnChar_id_tab_int {id : Str} (htab : '\t' ∉ id) (k : Int) :
    splitOnChar '\t' (id ++ '\t' :: intToChars k) = [id, intToChars k] := by
  rw [splitOnChar_append _ htab, splitOnChar_of_not_mem intToChars_not_tab]

/-- The load step reads back exactly the entry the save step wrote for
one well-formed identifier. -/
theorem loadLine_rankLine {id : Str} (hid : wf_id id) (r : Str → Option Int)
    (acc : List (Str × Int)) :
    loadLine acc (rankLine r id) =
      match r id with
      | some k => dictInsert id k acc
      | none => acc := by
  have htab : '\t' ∉ id := hid.2.1
  rcases hr : r id with _ | k
  · have hstrip : pyStrip (rankLine r id) = id := by
      rw [rankLine, rankField, hr]
      exact pyStrip_id_tab hid
    unfold loadLine
    rw [hstrip, if_neg hid.1, splitOnChar_of_not_mem htab]
    rfl
  · have hline : rankLine r id = id ++ '\t' :: intToChars k := by
      rw [rankLine, rankField, hr]
    have hstrip : pyStrip (rankLine r id) = id ++ '\t' :: intToChars k := by
      rw [hline]; exact pyStrip_id_tab_int hid k
    unfold loadLine
    rw [hstrip, if_neg (by simp [hid.1]), splitOnChar_id_tab_int htab k]
    simp [pyIntParse_intToChars]

/-- Specialization of loadLine_rankLine to a ranked identifier. -/
theorem loadLine_rankLine_some {id : Str} (hid : wf_id id) (r : Str → Option Int)
    (acc : List (Str × Int)) {k : Int} (hr : r id = some k) :
    loadLine acc (rankLine r id) = dictInsert id k acc := by
  rw [loadLine_rankLine hid r acc, hr]

/-- Specialization of loadLine_rankLine to an unranked identifier. -/
theorem loadLine_rankLine_none {id : Str} (hid : wf_id id) (r : Str → Option Int)
    (acc : List (Str × Int)) (hr : r id = none) :
    loadLine acc (rankLine r id) = acc := by
  rw [loadLine_rankLine hid r acc, hr]

/-- Folding the loader over the saved lines: the accumulated dict ends
up holding exactly the ranked identifiers of the catalog, later lines
never disturbing unrelated keys. -/
theorem loadFold (r : Str → Option Int) (files : List Str)
    (hwf : ∀ id ∈ files, wf_id id) (acc : List (Str × Int)) (x : Str) :
    dictLookup ((files.map (rankLine r)).foldl loadLine acc) x
      = if x ∈ files ∧ (r x).isSome then r x else dictLookup acc x := by
  induction files generalizing acc with
  | nil => simp
  | cons f fs ih =>
    rw [List.map_cons, List.foldl_cons]
    have ihx := ih (fun i hi => hwf i (by simp [hi]))
    by_cases hfs : x ∈ fs ∧ (r x).isSome
    · rcases hrf : r f with _ | k
      · rw [loadLine_rankLine_none (hwf f (by simp)) r acc hrf, ihx acc,
          if_pos hfs, if_pos ⟨by simp [hfs.1], hfs.2⟩]
      · rw [loadLine_rankLine_some (hwf f (by simp)) r acc hrf, ihx _,
          if_pos hfs, if_pos ⟨by simp [hfs.1], hfs.2⟩]
    · have hnc : f ≠ x → ¬(x ∈ f :: fs ∧ (r x).isSome) := by
        intro hfx hc
        refine hfs ⟨?_, hc.2⟩
        rcases List.mem_cons.mp hc.1 with h | h
        · exact absurd h.symm hfx
        · exact h
      rcases hrf : r f with _ | k
      · rw [loadLine_rankLine_none (hwf f (by simp)) r acc hrf, ihx acc, if_neg hfs]
        by_cases hfx : f = x
        · subst hfx
          rw [if_neg (by simp [hrf])]
        · rw [if_neg (hnc hfx)]
      · rw [loadLine_rankLine_some (hwf f (by simp)) r acc hrf, ihx _, if_neg hfs,
          dictLookup_insert]
        by_cases hfx : f = x
        · subst hfx
          rw [if_pos rfl, if_pos ⟨by simp, by simp [hrf]⟩, hrf]
        · rw [if_neg hfx, if_neg (hnc hfx)]

theorem load_rankings_some (content : Str) :
    load_rankings (some content) = loadRankingsLines (splitOnChar '\n' content) := rfl

theorem rankLine_no_newline {id : Str} (hid : wf_id id) (r : Str → Option Int) :
    '\n' ∉ rankLine r id := by
  intro hm
  rw [rankLine] at hm
  rcases List.mem_append.mp hm with hm | hm
  · exact hid.2.2.1 hm
  · rcases List.mem_cons.mp hm with hm | hm
    · exact absurd hm (by decide)
    · rw [rankField] at hm
      rcases hr : r id with _ | k <;> rw [hr] at hm
      · simp at hm
      · exact intToChars_not_newline hm

/-- Round trip of the rank map: for a well-formed catalog and a rank
map supported on it, load after save is the original map. -/
theorem load_save_rankings (r : Str → Option Int) (files : List Str)
    (hwf : ∀ id ∈ files, wf_id id) (hkeys : ∀ id, (r id).isSome → id ∈ files)
    (x : Str) :
    dictLookup (load_rankings (some (save_rankings r files))) x = r x := by
  rw [load_rankings_some]
  unfold save_rankings
  have hmaps : files.map (fun id => rankLine r id ++ ['\n'])
      = (files.map (rankLine r)).map (fun l => l ++ ['\n']) := by
    rw [List.map_map]; rfl
  rw [hmaps, splitOnChar_flatten (by
    intro l hl
    obtain ⟨i, hi, rfl⟩ := List.mem_map.mp hl
    exact rankLine_no_newline (hwf i hi) r)]
  rw [loadRankingsLines, List.foldl_append]
  have hnil : List.foldl loadLine ((files.map (rankLine r)).foldl loadLine []) [[]]
      = (files.map (rankLine r)).foldl loadLine [] := rfl
  rw [hnil, loadFold r files hwf [] x]
  rcases hr : r x with _ | k
  · rw [if_neg (by simp [hr])]
    rfl
  · rw [if_pos ⟨hkeys x (by simp [hr]), by simp [hr]⟩]

theorem getLast?_cons_right {c0 : Char} {l : Str} (h : l ≠ []) :
    (c0 :: l).getLast? = l.getLast? :=
  getLast?_append_right [c0] h

theorem pyStrip_id_mid_comment {id mid c : Str} (hid : wf_id id) (hc : wf_comment c) :
    pyStrip (id ++ '\t' :: mid ++ '\t' :: c) = id ++ '\t' :: mid ++ '\t' :: c := by
  obtain ⟨hne, _, _, _, hhd, _⟩ := hid
  have hl : (id ++ '\t' :: mid ++ '\t' :: c).getLast? = some (c.getLastD ' ') := by
    rw [getLast?_append_right (id ++ '\t' :: mid) (by simp),
      getLast?_cons_right hc.1]
    exact getLast?_eq_getLastD hc.1 ' '
  obtain ⟨ch, t, rfl⟩ := List.exists_cons_of_ne_nil hne
  exact pyStrip_eq_self2 rfl (by simpa using hhd) hl hc.2.2.2.2

theorem splitOnChar_three {id mid c : Str} (h1 : '\t' ∉ id) (h2 : '\t' ∉ mid)
    (h3 : '\t' ∉ c) :
    splitOnChar '\t' (id ++ '\t' :: mid ++ '\t' :: c) = [id, mid, c] := by
  rw [List.append_assoc, List.cons_append, splitOnChar_append _ h1,
    splitOnChar_append _ h2, splitOnChar_of_not_mem h3]

theorem rankField_not_tab (r : Str → Option Int) (id : Str) :
    '\t' ∉ rankField r id := by
  rw [rankField]
  rcases r id with _ | k
  · simp
  · exact intToChars_not_tab

theorem rankField_not_newline (r : Str → Option Int) (id : Str) :
    '\n' ∉ rankField r id := by
  rw [rankField]
  rcases r id with _ | k
  · simp
  · exact intToChars_not_newline

/-- The comment-loader step reads back exactly the entry the save step
wrote for one well-formed identifier and well-formed comment map. -/
theorem loadCommentsLine_commentLine {id : Str} (hid : wf_id id)
    (r : Str → Option Int) (cm : Str → Option Str)
    (hcm : ∀ c, cm id = some c → wf_comment c) (acc : List (Str × Str)) :
    loadCommentsLine acc (commentLine r cm id) =
      match cm id with
      | some c => dictInsert id c acc
      | none => acc := by
  have htab : '\t' ∉ id := hid.2.1
  rcases hcmid : cm id with _ | c
  · -- no comment: the stripped line has at most two fields and is skipped
    rcases hr : r id with _ | k
    · have hline : commentLine r cm id = (id ++ ['\t']) ++ ['\t'] := by
        rw [commentLine, rankField, hr, hcmid]
        simp
      have hstrip : pyStrip (commentLine r cm id) = id := by
        rw [hline]
        unfold pyStrip
        obtain ⟨ch, t, he⟩ := List.exists_cons_of_ne_nil hid.1
        rw [he] at hid ⊢
        rw [List.cons_append, List.cons_append,
          stripLeft_of_head (by simpa using hid.2.2.2.2.1), ← List.cons_append,
          ← List.cons_append, stripRight_append_ws (by decide),
          stripRight_append_ws (by decide)]
        exact stripRight_of_getLast (getLast?_eq_getLastD (by simp) ' ')
          hid.2.2.2.2.2
      unfold loadCommentsLine
      rw [hstrip, if_neg hid.1, if_pos htab]
    · have hline : commentLine r cm id = (id ++ '\t' :: intToChars k) ++ ['\t'] := by
        rw [commentLine, rankField, hr, hcmid]
        simp
      have hstrip : pyStrip (commentLine r cm id) = id ++ '\t' :: intToChars k := by
        rw [hline]
        unfold pyStrip
        obtain ⟨ch, t, he⟩ := List.exists_cons_of_ne_nil hid.1
        rw [he] at hid ⊢
        rw [List.cons_append, List.cons_append,
          stripLeft_of_head (by simpa using hid.2.2.2.2.1), ← List.cons_append,
          ← List.cons_append, stripRight_append_ws (by decide)]
        have := pyStrip_id_tab_int hid k
        unfold pyStrip at this
        rw [List.cons_append, stripLeft_of_head
          (by simpa using hid.2.2.2.2.1)] at this
        exact this
      unfold loadCommentsLine
      rw [hstrip, if_neg (by simp [hid.1]),
        if_neg (by simp), splitOnChar_id_tab_int htab k]
      rfl
  · -- comment present: three fields survive and the comment is stored
    have hwfc := hcm c hcmid
    have hline : commentLine r cm id = id ++ '\t' :: rankField r id ++ '\t' :: c := by
      rw [commentLine, hcmid]
      rfl
    have hstrip : pyStrip (commentLine r cm id)
        = id ++ '\t' :: rankField r id ++ '\t' :: c := by
      rw [hline]
      exact pyStrip_id_mid_comment hid hwfc
    unfold loadCommentsLine
    rw [hstrip, if_neg (by simp [hid.1]), if_neg (by simp),
      splitOnChar_three htab (rankField_not_tab r id) hwfc.2.1]
    rw [if_pos (by simp)]
    show (if c = [] then acc else dictInsert id c acc)
      = (match some c with
        | some c => dictInsert id c acc
        | none => acc)
    rw [if_neg hwfc.1]

theorem loadCommentsLine_some {id : Str} (hid : wf_id id) (r : Str → Option Int)
    (cm : Str → Option Str) (hcm : ∀ c, cm id = some c → wf_comment c)
    (acc : List (Str × Str)) {c : Str} (hc : cm id = some c) :
    loadCommentsLine acc (commentLine r cm id) = dictInsert id c acc := by
  rw [loadCommentsLine_commentLine hid r cm hcm acc, hc]

theorem loadCommentsLine_none {id : Str} (hid : wf_id id) (r : Str → Option Int)
    (cm : Str → Option Str) (hcm : ∀ c, cm id = some c → wf_comment c)
    (acc : List (Str × Str)) (hc : cm id = none) :
    loadCommentsLine acc (commentLine r cm id) = acc := by
  rw [loadCommentsLine_commentLine hid r cm hcm acc, hc]

theorem loadCommentsFold (r : Str → Option Int) (cm : Str → Option Str)
    (files : List Str) (hwf : ∀ id ∈ files, wf_id id)
    (hcm : ∀ id ∈ files, ∀ c, cm id = some c → wf_comment c)
    (acc : List (Str × Str)) (x : Str) :
    dictLookup ((files.map (commentLine r cm)).foldl loadCommentsLine acc) x
      = if x ∈ files ∧ (cm x).isSome then cm x else dictLookup acc x := by
  induction files generalizing acc with
  | nil => simp
  | cons f fs ih =>
    rw [List.map_cons, List.foldl_cons]
    have ihx := ih (fun i hi => hwf i (by simp [hi]))
      (fun i hi => hcm i (by simp [hi]))
    have hcmf := hcm f (by simp)
    by_cases hfs : x ∈ fs ∧ (cm x).isSome
    · rcases hrf : cm f with _ | c
      · rw [loadCommentsLine_none (hwf f (by simp)) r cm hcmf acc hrf, ihx acc,
          if_pos hfs, if_pos ⟨by simp [hfs.1], hfs.2⟩]
      · rw [loadCommentsLine_some (hwf f (by simp)) r cm hcmf acc hrf, ihx _,
          if_pos hfs, if_pos ⟨by simp [hfs.1], hfs.2⟩]
    · have hnc : f ≠ x → ¬(x ∈ f :: fs ∧ (cm x).isSome) := by
        intro hfx hc
        refine hfs ⟨?_, hc.2⟩
        rcases List.mem_cons.mp hc.1 with h | h
        · exact absurd h.symm hfx
        · exact h
      rcases hrf : cm f with _ | c
      · rw [loadCommentsLine_none (hwf f (by simp)) r cm hcmf acc hrf, ihx acc,
          if_neg hfs]
        by_cases hfx : f = x
        · subst hfx
          rw [if_neg (by simp [hrf])]
        · rw [if_neg (hnc hfx)]
      · rw [loadCommentsLine_some (hwf f (by simp)) r cm hcmf acc hrf, ihx _,
          if_neg hfs, dictLookup_insert]
        by_cases hfx : f = x
        · subst hfx
          rw [if_pos rfl, if_pos ⟨by simp, by simp [hrf]⟩, hrf]
        · rw [if_neg hfx, if_neg (hnc hfx)]

theorem commentLine_no_newline {id : Str} (hid : wf_id id) (r : Str → Option Int)
    (cm : Str → Option Str) (hcm : ∀ c, cm id = some c → wf_comment c) :
    '\n' ∉ commentLine r cm id := by
  intro hm
  rw [commentLine] at hm
  rcases List.mem_append.mp hm with hm | hm
  · rcases List.mem_append.mp hm with hm | hm
    · exact hid.2.2.1 hm
    · rcases List.mem_cons.mp hm with hm | hm
      · exact absurd hm (by decide)
      · exact rankField_not_newline r id hm
  · rcases List.mem_cons.mp hm with hm | hm
    · exact absurd hm (by decide)
    · rcases hc : cm id with _ | c
      · rw [hc] at hm; simp at hm
      · rw [hc] at hm
        exact (hcm c hc).2.2.1 (by simpa using hm)

theorem load_comments_some (content : Str) :
    load_comments (some content)
      = (splitOnChar '\n' content).foldl loadCommentsLine [] := rfl

/-- Round trip of the comment map through the companion file, for a
well-formed catalog and a well-formed comment map supported on it. -/
theorem load_save_comments (r : Str → Option Int) (cm : Str → Option Str)
    (files : List Str) (hwf : ∀ id ∈ files, wf_id id)
    (hcm : ∀ id, ∀ c, cm id = some c → wf_comment c)
    (hkeys : ∀ id, (cm id).isSome → id ∈ files) (x : Str) :
    dictLookup (load_comments (some (save_comments r cm files))) x = cm x := by
  rw [load_comments_some]
  unfold save_comments
  have hmaps : files.map (fun id => commentLine r cm id ++ ['\n'])
      = (files.map (commentLine r cm)).map (fun l => l ++ ['\n']) := by
    rw [List.map_map]; rfl
  rw [hmaps, splitOnChar_flatten (by
    intro l hl
    obtain ⟨i, hi, rfl⟩ := List.mem_map.mp hl
    exact commentLine_no_newline (hwf i hi) r cm (fun c hc => hcm i c hc))]
  rw [List.foldl_append]
  have hnil : List.foldl loadCommentsLine
      ((files.map (commentLine r cm)).foldl loadCommentsLine []) [[]]
      = (files.map (commentLine r cm)).foldl loadCommentsLine [] := rfl
  rw [hnil, loadCommentsFold r cm files hwf (fun i _ c hc => hcm i c hc) [] x]
  rcases hc : cm x with _ | c
  · rw [if_neg (by simp [hc])]
    rfl
  · rw [if_pos ⟨hkeys x (by simp [hc]), by simp [hc]⟩]

/-!
## Claims C1, C2, C8: persistence round trip, total enumeration,
fail-soft loading
-/

/-- Claim C1 (amended): for every catalog of well-formed identifiers
(nonempty, free of tab, newline and carriage return, with no leading or
trailing whitespace), every rank map whose keys lie in the catalog, and
every comment map whose keys lie in the catalog and whose comments are
well formed (nonempty, free of tab, newline and carriage return, with
no trailing whitespace), save_rankings followed by load_rankings
returns exactly the original rank map, and the comment loader applied
to the companion file returns exactly the original comment map; in
particular identifiers with no rank in the original map are absent
from the loaded map, since the lookup equality returns none there. -/
theorem c1_round_trip (files : List Str) (r : Str → Option Int)
    (cm : Str → Option Str)
    (hwf : ∀ id ∈ files, wf_id id)
    (hrk : ∀ id, (r id).isSome → id ∈ files)
    (hck : ∀ id, (cm id).isSome → id ∈ files)
    (hcw : ∀ id c, cm id = some c → wf_comment c) (x : Str) :
    dictLookup (load_rankings (some (save_rankings r files))) x = r x
    ∧ dictLookup (load_comments (some (save_comments r cm files))) x = cm x :=
  ⟨load_save_rankings r files hwf hrk x,
   load_save_comments r cm files hwf hcw hck x⟩

/-- Claim C1, counterexample to the unrestricted statement: a comment
map may hold the empty string for a catalog identifier, but the
comment loader only stores truthy (nonempty) third fields, so the
loaded comment map differs from the original at that identifier. -/
theorem c1_round_trip_cex :
    dictLookup (load_comments (some (save_comments (fun _ => none)
      (fun x => if x = ['a'] then some [] else none) [['a']]))) ['a'] = none
    ∧ (fun x => if x = ['a'] then some ([] : Str) else none) ['a'] = some [] :=
  ⟨by decide, rfl⟩

/-- Claim C1, witness: a concrete catalog, rank map and comment map
satisfying the hypotheses round-trip exactly. -/
theorem c1_round_trip_witness :
    (∀ id ∈ [("a.jpg").toList], wf_id id)
    ∧ dictLookup (load_rankings (some (save_rankings
        (fun x => if x = ("a.jpg").toList then some 2 else none)
        [("a.jpg").toList]))) (("a.jpg").toList) = some 2
    ∧ dictLookup (load_comments (some (save_comments
        (fun x => if x = ("a.jpg").toList then some 2 else none)
        (fun x => if x = ("a.jpg").toList then some (("ok").toList) else none)
        [("a.jpg").toList]))) (("a.jpg").toList) = some (("ok").toList) := by
  have h := c1_round_trip [("a.jpg").toList]
    (fun x => if x = ("a.jpg").toList then some 2 else none)
    (fun x => if x = ("a.jpg").toList then some (("ok").toList) else none)
    (by decide)
    (by
      intro id h
      have h2 : (if id = ("a.jpg").toList then some (2 : Int) else none).isSome := h
      by_cases hx : id = ("a.jpg").toList
      · simp [hx]
      · rw [if_neg hx] at h2
        cases h2)
    (by
      intro id h
      have h2 : (if id = ("a.jpg").toList then some (("ok").toList)
          else none).isSome := h
      by_cases hx : id = ("a.jpg").toList
      · simp [hx]
      · rw [if_neg hx] at h2
        cases h2)
    (by
      intro id c h
      have h2 : (if id = ("a.jpg").toList then some (("ok").toList) else none)
          = some c := h
      by_cases hx : id = ("a.jpg").toList
      · rw [if_pos hx] at h2
        cases h2
        decide
      · rw [if_neg hx] at h2
        cases h2)
    (("a.jpg").toList)
  exact ⟨by decide, h.1.trans (by decide), h.2.trans (by decide)⟩

/-- Claim C2 (amended): for identifiers containing no newline
character, the saved rankings file splits on newlines into exactly one
line per catalog identifier, in catalog order, each line the
identifier, a tab, and the rank field (empty when unranked), followed
by the empty chunk that marks the terminating newline of the last
line. -/
theorem c2_total_enumeration (r : Str → Option Int) (files : List Str)
    (h : ∀ id ∈ files, '\n' ∉ id) :
    splitOnChar '\n' (save_rankings r files)
      = files.map (fun id => id ++ '\t' :: rankField r id) ++ [[]] := by
  unfold save_rankings
  have hmaps : files.map (fun id => rankLine r id ++ ['\n'])
      = (files.map (rankLine r)).map (fun l => l ++ ['\n']) := by
    rw [List.map_map]; rfl
  rw [hmaps, splitOnChar_flatten (by
    intro l hl
    obtain ⟨i, hi, rfl⟩ := List.mem_map.mp hl
    intro hm
    rw [rankLine] at hm
    rcases List.mem_append.mp hm with hm | hm
    · exact h i hi hm
    · rcases List.mem_cons.mp hm with hm | hm
      · exact absurd hm (by decide)
      · exact rankField_not_newline r i hm)]
  rfl

/-- Claim C2, counterexample to the unrestricted statement: an
identifier containing a newline produces two file lines, so the file
does not consist of one line per identifier followed by the final
empty chunk. -/
theorem c2_total_enumeration_cex :
    splitOnChar '\n' (save_rankings (fun _ => none) [['a', '\n', 'b']])
      = [['a'], ['b', '\t'], []]
    ∧ ¬(splitOnChar '\n' (save_rankings (fun _ => none) [['a', '\n', 'b']])
        = [['a', '\n', 'b'] ++ ['\t'], []]) :=
  ⟨by decide, by decide⟩

/-- Claim C2, witness: a two-identifier catalog with one ranked
identifier yields exactly the two expected lines in order. -/
theorem c2_total_enumeration_witness :
    (∀ id ∈ [("a.jpg").toList, ("b.jpg").toList], '\n' ∉ id)
    ∧ splitOnChar '\n' (save_rankings
        (fun x => if x = ("a.jpg").toList then some 1 else none)
        [("a.jpg").toList, ("b.jpg").toList])
      = [("a.jpg").toList ++ ['\t', '1'], ("b.jpg").toList ++ ['\t'], []] :=
  ⟨by decide, (c2_total_enumeration _ _ (by decide)).trans (by decide)⟩

/-- Claim C8: load_rankings fails soft.  A missing file yields the
empty map; a line whose rank field is missing (no second tab field) or
not parseable as an int is skipped while every other line is still
processed; and loading is a total function of the file content, never
an error. -/
theorem c8_load_fails_soft :
    load_rankings none = []
    ∧ (∀ (pre post : List Str) (bad : Str),
        (pyStrip bad = [] ∨ (splitOnChar '\t' (pyStrip bad)).get? 1 = none
          ∨ pyIntParse ((splitOnChar '\t' (pyStrip bad)).getD 1 []) = none) →
        loadRankingsLines (pre ++ bad :: post) = loadRankingsLines (pre ++ post))
    ∧ (∀ content, load_rankings (some content)
        = loadRankingsLines (splitOnChar '\n' content)) := by
  refine ⟨rfl, ?_, fun _ => rfl⟩
  intro pre post bad hbad
  have hskip : ∀ acc, loadLine acc bad = acc := by
    intro acc
    unfold loadLine
    by_cases hempty : pyStrip bad = []
    · rw [if_pos hempty]
    · rw [if_neg hempty]
      rcases hget : (splitOnChar '\t' (pyStrip bad)).get? 1 with _ | s
      · simp only [hget]
      · have hs : (splitOnChar '\t' (pyStrip bad)).getD 1 [] = s := by
          simp [List.getD, ← List.get?_eq_getElem?, hget]
        rcases hbad with hbad | hbad | hbad
        · exact absurd hbad hempty
        · rw [hbad] at hget
          cases hget
        · rw [hs] at hbad
          simp only [hget, hbad]
  rw [loadRankingsLines, loadRankingsLines, List.foldl_append, List.foldl_append,
    List.foldl_cons, hskip]

/-- Claim C8, witness: a middle line with an unparseable rank field is
skipped while the surrounding lines load normally. -/
theorem c8_load_fails_soft_witness :
    pyIntParse ((splitOnChar '\t' (pyStrip (("b.jpg\tx").toList))).getD 1 []) = none
    ∧ loadRankingsLines
        [("a.jpg\t1").toList, ("b.jpg\tx").toList, ("c.jpg\t2").toList]
      = loadRankingsLines [("a.jpg\t1").toList, ("c.jpg\t2").toList] := by
  refine ⟨by decide, ?_⟩
  exact c8_load_fails_soft.2.1 [("a.jpg\t1").toList] [("c.jpg\t2").toList]
    (("b.jpg\tx").toList) (Or.inr (Or.inr (by decide)))

/-!
## Session lemmas and claims C4, C5, C7
-/

theorem submit_rank_value_rankings (s : SessionState) (id : Str) (v : Int) (x : Str) :
    (submit_rank_value s id v).rankings x
      = if x = id then some v else s.rankings x := by
  unfold submit_rank_value sessionSave
  by_cases h : 10 ≤ s.saveCounter + 1 <;> simp [h]

theorem submit_rank_value_jpgFiles (s : SessionState) (id : Str) (v : Int) :
    (submit_rank_value s id v).jpgFiles = s.jpgFiles := by
  unfold submit_rank_value sessionSave
  by_cases h : 10 ≤ s.saveCounter + 1 <;> simp [h]

theorem submitAll_jpgFiles (subs : List (Str × Int)) (s : SessionState) :
    (subs.foldl (fun st q => submit_rank_value st q.1 q.2) s).jpgFiles
      = s.jpgFiles := by
  induction subs generalizing s with
  | nil => rfl
  | cons q rest ih =>
    rw [List.foldl_cons, ih, submit_rank_value_jpgFiles]

theorem submitAll_rankings_not_mem (subs : List (Str × Int)) (s : SessionState)
    {x : Str} (h : x ∉ subs.map Prod.fst) :
    (subs.foldl (fun st q => submit_rank_value st q.1 q.2) s).rankings x
      = s.rankings x := by
  revert h
  induction subs generalizing s with
  | nil => intro h; rfl
  | cons q rest ih =>
    intro h
    have h1 : ¬(x = q.1) := fun he => h (by
      rw [List.map_cons, he]; exact List.mem_cons_self _ _)
    have h2 : x ∉ rest.map Prod.fst := fun hm => h (by
      rw [List.map_cons]; exact List.mem_cons_of_mem _ hm)
    rw [List.foldl_cons, ih _ h2, submit_rank_value_rankings, if_neg h1]

theorem submitAll_rankings_mem (subs : List (Str × Int)) (s : SessionState)
    (hnd : (subs.map Prod.fst).Nodup) {p : Str × Int} (hp : p ∈ subs) :
    (subs.foldl (fun st q => submit_rank_value st q.1 q.2) s).rankings p.1
      = some p.2 := by
  revert hnd hp
  induction subs generalizing s with
  | nil => intro _ hp; cases hp
  | cons q rest ih =>
    intro hnd hp
    rw [List.map_cons, List.nodup_cons] at hnd
    rw [List.foldl_cons]
    rcases List.mem_cons.mp hp with rfl | hp2
    · rw [submitAll_rankings_not_mem rest _ hnd.1, submit_rank_value_rankings,
        if_pos rfl]
    · exact ih _ hnd.2 hp2

theorem submitAll_keys (subs : List (Str × Int)) (s : SessionState)
    (hkeys : ∀ i, (s.rankings i).isSome → i ∈ s.jpgFiles)
    (hsub : ∀ p ∈ subs, p.1 ∈ s.jpgFiles) :
    ∀ i, ((subs.foldl (fun st q => submit_rank_value st q.1 q.2) s).rankings i).isSome
      → i ∈ s.jpgFiles := by
  revert hkeys hsub
  induction subs generalizing s with
  | nil => intro hkeys _ i hi; exact hkeys i hi
  | cons q rest ih =>
    intro hkeys hsub i hi
    rw [List.foldl_cons] at hi
    have hfiles : (submit_rank_value s q.1 q.2).jpgFiles = s.jpgFiles :=
      submit_rank_value_jpgFiles s q.1 q.2
    have hkeys2 : ∀ j, ((submit_rank_value s q.1 q.2).rankings j).isSome
        → j ∈ (submit_rank_value s q.1 q.2).jpgFiles := by
      intro j hj
      rw [hfiles]
      rw [submit_rank_value_rankings] at hj
      by_cases hji : j = q.1
      · rw [hji]
        exact hsub q (List.mem_cons_self _ _)
      · rw [if_neg hji] at hj
        exact hkeys j hj
    have hsub2 : ∀ p ∈ rest, p.1 ∈ (submit_rank_value s q.1 q.2).jpgFiles := by
      intro p hp
      rw [hfiles]
      exact hsub p (List.mem_cons_of_mem _ hp)
    have hres := ih (submit_rank_value s q.1 q.2) hkeys2 hsub2 i hi
    rwa [hfiles] at hres

/-- Claim C4: with batch threshold 10, a submitted rank is recorded in
the in-memory map immediately; a submission below the boundary leaves
the files untouched and increments the counter, the tenth submission
writes the file and resets the counter; closing always writes a final
save; and consequently, for any list of validated submissions of
distinct catalog identifiers followed by a close, every submitted rank
is present in the persisted rankings file. -/
theorem c4_batch_save_boundary (s : SessionState) (id : Str) (v : Int)
    (subs : List (Str × Int))
    (hwf : ∀ i ∈ s.jpgFiles, wf_id i)
    (hsub : ∀ p ∈ subs, p.1 ∈ s.jpgFiles)
    (hkeys : ∀ i, (s.rankings i).isSome → i ∈ s.jpgFiles)
    (hnd : (subs.map Prod.fst).Nodup) :
    (submit_rank_value s id v).rankings id = some v
    ∧ (s.saveCounter + 1 < 10 →
        (submit_rank_value s id v).fileRank = s.fileRank
        ∧ (submit_rank_value s id v).fileComments = s.fileComments
        ∧ (submit_rank_value s id v).saveCounter = s.saveCounter + 1)
    ∧ (10 ≤ s.saveCounter + 1 →
        (submit_rank_value s id v).fileRank
          = some (save_rankings (submit_rank_value s id v).rankings s.jpgFiles)
        ∧ (submit_rank_value s id v).saveCounter = 0)
    ∧ (closeEvent s).fileRank = some (save_rankings s.rankings s.jpgFiles)
    ∧ (∀ p ∈ subs,
        dictLookup (load_rankings (closeEvent
          (subs.foldl (fun st q => submit_rank_value st q.1 q.2) s)).fileRank) p.1
          = some p.2) := by
  refine ⟨by rw [submit_rank_value_rankings, if_pos rfl], ?_, ?_, rfl, ?_⟩
  · intro hlt
    have h : ¬(10 ≤ s.saveCounter + 1) := by omega
    unfold submit_rank_value
    simp [h]
  · intro hge
    have h3 : (submit_rank_value s id v).rankings
        = fun x => if x = id then some v else s.rankings x := by
      funext x
      exact submit_rank_value_rankings s id v x
    have h1 : (submit_rank_value s id v).saveCounter = 0 := by
      unfold submit_rank_value sessionSave
      simp [hge]
    have h2 : (submit_rank_value s id v).fileRank
        = some (save_rankings (fun x => if x = id then some v else s.rankings x)
            s.jpgFiles) := by
      unfold submit_rank_value sessionSave
      simp [hge]
    exact ⟨by rw [h3, h2], h1⟩
  · intro p hp
    have hfiles : (subs.foldl (fun st q => submit_rank_value st q.1 q.2) s).jpgFiles
        = s.jpgFiles := submitAll_jpgFiles subs s
    have hclose : (closeEvent
        (subs.foldl (fun st q => submit_rank_value st q.1 q.2) s)).fileRank
        = some (save_rankings
            (subs.foldl (fun st q => submit_rank_value st q.1 q.2) s).rankings
            (subs.foldl (fun st q => submit_rank_value st q.1 q.2) s).jpgFiles) := rfl
    rw [hclose, hfiles,
      load_save_rankings _ s.jpgFiles hwf (submitAll_keys subs s hkeys hsub)]
    exact submitAll_rankings_mem subs s hnd hp

/-- Claim C4, witness: nine submissions from a fresh session followed
by a close leave every submitted rank in the persisted file. -/
theorem c4_batch_save_boundary_witness :
    (([(['a'], 1), (['b'], 2), (['c'], 3), (['d'], 0), (['e'], 1),
       (['f'], 2), (['g'], 3), (['h'], 0), (['i'], 1)].map
        (Prod.fst (α := Str) (β := Int))).Nodup)
    ∧ (∀ p ∈ [(['a'], (1 : Int)), (['b'], 2), (['c'], 3), (['d'], 0), (['e'], 1),
         (['f'], 2), (['g'], 3), (['h'], 0), (['i'], 1)],
        dictLookup (load_rankings (closeEvent
          ([(['a'], (1 : Int)), (['b'], 2), (['c'], 3), (['d'], 0), (['e'], 1),
            (['f'], 2), (['g'], 3), (['h'], 0), (['i'], 1)].foldl
            (fun st q => submit_rank_value st q.1 q.2)
            { jpgFiles := [['a'], ['b'], ['c'], ['d'], ['e'], ['f'], ['g'], ['h'], ['i']]
              rankings := fun _ => none
              comments := fun _ => none
              saveCounter := 0
              minRank := 0
              maxRank := 3
              rankConfig := []
              fileRank := none
              fileComments := none })).fileRank) p.1 = some p.2) := by
  refine ⟨by decide, ?_⟩
  exact (c4_batch_save_boundary
    { jpgFiles := [['a'], ['b'], ['c'], ['d'], ['e'], ['f'], ['g'], ['h'], ['i']]
      rankings := fun _ => none
      comments := fun _ => none
      saveCounter := 0
      minRank := 0
      maxRank := 3
      rankConfig := []
      fileRank := none
      fileComments := none }
    ['a'] 0
    [(['a'], 1), (['b'], 2), (['c'], 3), (['d'], 0), (['e'], 1),
     (['f'], 2), (['g'], 3), (['h'], 0), (['i'], 1)]
    (by decide) (by decide)
    (by intro i h; simp at h)
    (by decide)).2.2.2.2

/-- Claim C5, code-bug demonstration: clear_rank removes the rank and
leaves the in-memory comment map untouched, but its immediate save is
invoked without the comments argument, so the rewritten companion file
carries an empty comment field for every identifier and the stored
comment is no longer on disk. -/
theorem c5_clear_rank_comment_wipe :
    (clear_rank
      { jpgFiles := [("a.jpg").toList]
        rankings := fun x => if x = ("a.jpg").toList then some 1 else none
        comments := fun x => if x = ("a.jpg").toList then some (("note").toList)
          else none
        saveCounter := 0
        minRank := 0
        maxRank := 3
        rankConfig := []
        fileRank := none
        fileComments := none } (("a.jpg").toList)).rankings (("a.jpg").toList) = none
    ∧ (clear_rank
      { jpgFiles := [("a.jpg").toList]
        rankings := fun x => if x = ("a.jpg").toList then some 1 else none
        comments := fun x => if x = ("a.jpg").toList then some (("note").toList)
          else none
        saveCounter := 0
        minRank := 0
        maxRank := 3
        rankConfig := []
        fileRank := none
        fileComments := none } (("a.jpg").toList)).comments (("a.jpg").toList)
      = some (("note").toList)
    ∧ dictLookup (load_comments (clear_rank
      { jpgFiles := [("a.jpg").toList]
        rankings := fun x => if x = ("a.jpg").toList then some 1 else none
        comments := fun x => if x = ("a.jpg").toList then some (("note").toList)
          else none
        saveCounter := 0
        minRank := 0
        maxRank := 3
        rankConfig := []
        fileRank := none
        fileComments := none } (("a.jpg").toList)).fileComments)
      (("a.jpg").toList) = none := by
  exact ⟨by decide, by decide, by decide⟩

/-- Claim C7: a value outside the configured valid set never mutates
the session and is reported to the caller via the False outcome of
submit_rank; a valid input with mapped value v records v immediately,
and an explicit save followed by load returns v for the identifier. -/
theorem c7_rank_validation (s : SessionState) (id : Str) (rank_str : Str)
    (hwf : ∀ i ∈ s.jpgFiles, wf_id i) (hid : id ∈ s.jpgFiles)
    (hkeys : ∀ i, (s.rankings i).isSome → i ∈ s.jpgFiles) :
    ((is_valid_rank rank_str s.minRank s.maxRank s.rankConfig).1 = false →
      submit_rank s id rank_str = (false, s))
    ∧ (∀ v, is_valid_rank rank_str s.minRank s.maxRank s.rankConfig
        = (true, some v) →
        (submit_rank s id rank_str).1 = true
        ∧ (submit_rank s id rank_str).2.rankings id = some v
        ∧ dictLookup (load_rankings (some (save_rankings
            (submit_rank s id rank_str).2.rankings s.jpgFiles))) id = some v) := by
  constructor
  · intro hf
    unfold submit_rank
    rcases hv : is_valid_rank rank_str s.minRank s.maxRank s.rankConfig with ⟨b, ov⟩
    rw [hv] at hf
    simp only at hf
    subst hf
    rcases ov with _ | v <;> rfl
  · intro v hv
    have hsub : submit_rank s id rank_str = (true, submit_rank_value s id v) := by
      unfold submit_rank
      rw [hv]
    have hkeys2 : ∀ i, ((submit_rank_value s id v).rankings i).isSome
        → i ∈ s.jpgFiles := by
      intro i hi
      rw [submit_rank_value_rankings] at hi
      by_cases hii : i = id
      · rw [hii]
        exact hid
      · rw [if_neg hii] at hi
        exact hkeys i hi
    refine ⟨by rw [hsub], ?_, ?_⟩
    · rw [hsub]
      show (submit_rank_value s id v).rankings id = some v
      rw [submit_rank_value_rankings, if_pos rfl]
    · rw [hsub]
      show dictLookup (load_rankings (some (save_rankings
        (submit_rank_value s id v).rankings s.jpgFiles))) id = some v
      rw [load_save_rankings _ s.jpgFiles hwf hkeys2,
        submit_rank_value_rankings, if_pos rfl]

/-- Claim C7, witness: with the numeric range 0 to 3, the input 7 is
rejected without mutation and the input 2 persists through save and
load. -/
theorem c7_rank_validation_witness :
    (is_valid_rank (("7").toList) 0 3 []).1 = false
    ∧ submit_rank
        { jpgFiles := [['a']], rankings := fun _ => none, comments := fun _ => none,
          saveCounter := 0, minRank := 0, maxRank := 3, rankConfig := [],
          fileRank := none, fileComments := none } ['a'] (("7").toList)
      = (false,
        { jpgFiles := [['a']], rankings := fun _ => none, comments := fun _ => none,
          saveCounter := 0, minRank := 0, maxRank := 3, rankConfig := [],
          fileRank := none, fileComments := none })
    ∧ is_valid_rank (("2").toList) 0 3 [] = (true, some 2)
    ∧ dictLookup (load_rankings (some (save_rankings
        (submit_rank
          { jpgFiles := [['a']], rankings := fun _ => none, comments := fun _ => none,
            saveCounter := 0, minRank := 0, maxRank := 3, rankConfig := [],
            fileRank := none, fileComments := none } ['a']
          (("2").toList)).2.rankings [['a']]))) ['a'] = some 2 := by
  refine ⟨by decide, ?_, by decide, ?_⟩
  · exact (c7_rank_validation
      { jpgFiles := [['a']], rankings := fun _ => none, comments := fun _ => none,
        saveCounter := 0, minRank := 0, maxRank := 3, rankConfig := [],
        fileRank := none, fileComments := none } ['a'] (("7").toList)
      (by decide) (by decide) (by intro i h; simp at h)).1 (by decide)
  · exact ((c7_rank_validation
      { jpgFiles := [['a']], rankings := fun _ => none, comments := fun _ => none,
        saveCounter := 0, minRank := 0, maxRank := 3, rankConfig := [],
        fileRank := none, fileComments := none } ['a'] (("2").toList)
      (by decide) (by decide) (by intro i h; simp at h)).2 2
      (by decide)).2.2

/-!
## Claims C3 and C10: coordinate parser
-/

/-- Zeta-reduced defining equation of parse_radec_from_filename. -/
theorem parse_radec_eq (fname : Str) :
    parse_radec_from_filename fname
      = match searchSex (nameWithoutExt fname) with
        | some (ra_str, sign, dec_str) =>
          (match sexagesimal_to_decimal ra_str (sign :: dec_str) with
          | some r => some r
          | none => tryDecimal (nameWithoutExt fname))
        | none => tryDecimal (nameWithoutExt fname) := rfl

/-- Claim C3 (amended): parse_radec_from_filename always returns a
pair or none, never raising; a pair produced by the decimal branch is
range-validated with 0 to 360 (inclusive at 360) for right ascension
and -90 to 90 for declination; every returned pair comes from the
sexagesimal conversion or from the validated decimal branch (the
sexagesimal branch performs no range validation); the filename
src_100.00371_-69.056759.jpg parses to exactly (100.00371,
-69.056759); COOLJ085925.43+074849.05_x.jpg parses through the
hours-times-fifteen conversion to right ascension 3236543/24000,
strictly between 134.855 and 134.857 degrees, and declination
62509/8000 = 7.813625 degrees; and a right-ascension token of 400.0 is
out of range and parses to none. -/
theorem c3_coordinate_contract :
    (∀ fname, parse_radec_from_filename fname = none
      ∨ ∃ p, parse_radec_from_filename fname = some p)
    ∧ (∀ fname p, tryDecimal fname = some p →
        0 ≤ p.1 ∧ p.1 ≤ 360 ∧ -90 ≤ p.2 ∧ p.2 ≤ 90)
    ∧ (∀ fname p, parse_radec_from_filename fname = some p →
        (∃ g, searchSex (nameWithoutExt fname) = some g
          ∧ sexagesimal_to_decimal g.1 (g.2.1 :: g.2.2) = some p)
        ∨ tryDecimal (nameWithoutExt fname) = some p)
    ∧ parse_radec_from_filename (("src_100.00371_-69.056759.jpg").toList)
        = some ((100.00371 : ℚ), (-69.056759 : ℚ))
    ∧ parse_radec_from_filename (("COOLJ085925.43+074849.05_x.jpg").toList)
        = some ((3236543 : ℚ)/24000, (62509 : ℚ)/8000)
    ∧ ((134855/1000 : ℚ) < 3236543/24000 ∧ (3236543/24000 : ℚ) < 134857/1000
        ∧ (62509/8000 : ℚ) = 7.813625)
    ∧ parse_radec_from_filename (("src_400.0_-69.056759.jpg").toList) = none := by
  refine ⟨?_, ?_, ?_, by with_unfolding_all rfl, by with_unfolding_all rfl,
    by norm_num, by with_unfolding_all rfl⟩
  · intro fname
    rcases h : parse_radec_from_filename fname with _ | p
    · exact Or.inl rfl
    · exact Or.inr ⟨p, rfl⟩
  · intro fname p hp
    unfold tryDecimal at hp
    split at hp
    · cases hp
    · split at hp
      · split at hp
        · rename_i hcond
          cases hp
          exact ⟨hcond.1, hcond.2.1, hcond.2.2.1, hcond.2.2.2⟩
        · cases hp
      · cases hp
  · intro fname p hp
    rw [parse_radec_eq] at hp
    rcases hg : searchSex (nameWithoutExt fname) with _ | ⟨ra, sg, dec⟩
    · simp only [hg] at hp
      exact Or.inr hp
    · simp only [hg] at hp
      rcases hr : sexagesimal_to_decimal ra (sg :: dec) with _ | r
      · simp only [hr] at hp
        exact Or.inr hp
      · simp only [hr, Option.some.injEq] at hp
        subst hp
        exact Or.inl ⟨(ra, sg, dec), rfl, hr⟩

/-- Claim C3, counterexample to the unrestricted range contract: the
sexagesimal branch performs no range validation, so a filename whose
sexagesimal fields exceed the legal ranges parses to a pair far
outside them; moreover the decimal branch accepts a right ascension of
exactly 360 degrees, which the claimed half-open interval excludes. -/
theorem c3_coordinate_contract_cex :
    parse_radec_from_filename (("995959.00+994859.05.jpg").toList)
      = some ((359999 : ℚ)/240, (7186781 : ℚ)/72000)
    ∧ ¬((359999 : ℚ)/240 < 360)
    ∧ ¬((7186781 : ℚ)/72000 ≤ 90)
    ∧ parse_radec_from_filename (("x_360.0_0.0.jpg").toList) = some ((360 : ℚ), 0)
    ∧ ¬((360 : ℚ) < 360) :=
  ⟨by with_unfolding_all rfl, by norm_num, by norm_num,
   by with_unfolding_all rfl, by norm_num⟩

/-- Claim C3, witness: a concrete decimal-branch result satisfies the
range bounds of the amended contract. -/
theorem c3_coordinate_contract_witness :
    tryDecimal (("x_10.0_20.0").toList) = some ((10 : ℚ), 20)
    ∧ 0 ≤ (10 : ℚ) ∧ (10 : ℚ) ≤ 360 ∧ -90 ≤ (20 : ℚ) ∧ (20 : ℚ) ≤ 90 := by
  refine ⟨by with_unfolding_all rfl, ?_⟩
  have h := c3_coordinate_contract.2.1 (("x_10.0_20.0").toList) ((10 : ℚ), 20)
    (by with_unfolding_all rfl)
  exact ⟨h.1, h.2.1, h.2.2.1, h.2.2.2⟩

/-- Claim C10: when the sexagesimal search fails and the decimal
pattern has at least one non-overlapping match in the
extension-stripped filename, parse_radec_from_filename is determined
by the last such match alone: it converts that match's two groups and
range-checks them, ignoring every earlier match. -/
theorem c10_last_decimal_match (fname : Str) (g1 g2 : Str)
    (hsex : searchSex (nameWithoutExt fname) = none)
    (hlast : (findIterDec (nameWithoutExt fname)).getLast? = some (g1, g2)) :
    parse_radec_from_filename fname
      = match pyFloatParse g1, pyFloatParse g2 with
        | some ra, some dec =>
          if 0 ≤ ra ∧ ra ≤ 360 ∧ -90 ≤ dec ∧ dec ≤ 90 then some (ra, dec)
          else none
        | _, _ => none := by
  have h1 : parse_radec_from_filename fname = tryDecimal (nameWithoutExt fname) := by
    rw [parse_radec_eq, hsex]
  rw [h1]
  unfold tryDecimal
  rw [hlast]

/-- Claim C10, witness: with two decimal matches in the filename, the
parse result is the second (rightmost) pair. -/
theorem c10_last_decimal_match_witness :
    searchSex (nameWithoutExt (("x_10.0_20.0_30.0_40.0.jpg").toList)) = none
    ∧ (findIterDec (nameWithoutExt
        (("x_10.0_20.0_30.0_40.0.jpg").toList))).getLast?
      = some ((("30.0").toList), (("40.0").toList))
    ∧ parse_radec_from_filename (("x_10.0_20.0_30.0_40.0.jpg").toList)
      = some ((30 : ℚ), 40) := by
  refine ⟨by decide, by decide, ?_⟩
  have h := c10_last_decimal_match (("x_10.0_20.0_30.0_40.0.jpg").toList)
    (("30.0").toList) (("40.0").toList) (by decide) (by decide)
  exact h.trans (by with_unfolding_all rfl)

/-!
## Claim C6: asinh stretch safety
-/

theorem clip_byte_le (y : ℚ) : (⌊clipQ y 0 1 * 255⌋).toNat ≤ 255 := by
  have h1 : clipQ y 0 1 ≤ 1 := min_le_right _ _
  have h2 : clipQ y 0 1 * 255 ≤ 255 := by nlinarith
  have h3 : (⌊clipQ y 0 1 * 255⌋ : ℤ) ≤ 255 := by
    have h4 := Int.floor_le_floor h2
    simpa using h4
  omega

/-- Claim C6: for every stretch function and every input layer, the
scaled output consists of naturals bounded by 255 (so the output is
integers in [0, 255]); a layer with no positive pixel after nan
replacement, in particular an all-zero layer, yields the all-zero
output through the early return, before any division occurs, and
nothing raises. -/
theorem c6_asinh_stretch_safety (stretch : ℚ → ℚ) (data : List (Option ℚ)) :
    (∀ v ∈ apply_asinh_scaling stretch data, v ≤ 255)
    ∧ ((data.map (fun x => x.getD 0)).filter (fun x => decide (0 < x)) = [] →
        apply_asinh_scaling stretch data = List.replicate data.length 0) := by
  constructor
  · intro v hv
    simp only [apply_asinh_scaling] at hv
    split at hv
    · cases hv
    · split at hv
      · obtain ⟨x, _, rfl⟩ := List.mem_map.mp hv
        exact Nat.zero_le _
      · obtain ⟨x, _, rfl⟩ := List.mem_map.mp hv
        exact clip_byte_le _
  · intro hfilter
    unfold apply_asinh_scaling
    by_cases hlen : data.length = 0
    · rw [if_pos hlen]
      rw [List.length_eq_zero.mp hlen]
      rfl
    · rw [if_neg hlen]
      simp only [hfilter]
      have hs : sortQ ([] : List ℚ) = [] := rfl
      rw [hs]
      rw [if_pos rfl]
      rw [List.map_map]
      exact List.map_const' data 0

/-- Claim C6, witness: a layer of a zero, a negative pixel and a nan
stretches to the all-zero layer, all entries within [0, 255]. -/
theorem c6_asinh_stretch_safety_witness :
    (([some (0 : ℚ), some (-1), none].map (fun x => x.getD 0)).filter
        (fun x => decide (0 < x)) = [])
    ∧ apply_asinh_scaling (fun x => x) [some (0 : ℚ), some (-1), none]
        = List.replicate 3 0 := by
  constructor
  · with_unfolding_all rfl
  · exact (c6_asinh_stretch_safety (fun x => x) [some 0, some (-1), none]).2
      (by with_unfolding_all rfl)

/-!
## Claim C9: secondary-image fetch failure atomicity
-/

/-- Claim C9: a network, HTTP or timeout failure surfaces as a None
result with the file system unchanged, leaving neither a partial
output image nor a temporary FITS file; an unexpected raster shape
surfaces as None after the temporary FITS file is removed, again with
no output file; a successful fetch with a valid shape removes the
temporary FITS file, leaves the output image and returns its path. -/
theorem c9_fetch_failure_atomicity (net : NetResult) (tmp out : Str)
    (fs : FileSystem) (hto : tmp ≠ out) (htmp : tmp ∉ fs.files)
    (hout : out ∉ fs.files) :
    (net = NetResult.failure →
      (download_secondary_image net tmp out fs).1 = none
      ∧ tmp ∉ (download_secondary_image net tmp out fs).2.files
      ∧ out ∉ (download_secondary_image net tmp out fs).2.files)
    ∧ (∀ shape, net = NetResult.success shape →
        ¬(shape.length = 3 ∨ shape.length = 2) →
        (download_secondary_image net tmp out fs).1 = none
        ∧ tmp ∉ (download_secondary_image net tmp out fs).2.files
        ∧ out ∉ (download_secondary_image net tmp out fs).2.files)
    ∧ (∀ shape, net = NetResult.success shape →
        (shape.length = 3 ∨ shape.length = 2) →
        (download_secondary_image net tmp out fs).1 = some out
        ∧ tmp ∉ (download_secondary_image net tmp out fs).2.files
        ∧ out ∈ (download_secondary_image net tmp out fs).2.files) := by
  refine ⟨?_, ?_, ?_⟩
  · rintro rfl
    exact ⟨rfl, htmp, hout⟩
  · rintro shape rfl hbad
    have hstep : download_secondary_image (NetResult.success shape) tmp out fs
        = (none, fsRemove tmp (fsCreate tmp fs)) := by
      simp only [download_secondary_image]
      rw [if_neg hbad]
    rw [hstep]
    have hfs1 : fsCreate tmp fs = ⟨tmp :: fs.files⟩ := by
      unfold fsCreate
      rw [if_neg htmp]
    rw [hfs1]
    have herase : (fsRemove tmp ⟨tmp :: fs.files⟩).files = fs.files := by
      unfold fsRemove
      simp [List.erase_cons_head]
    exact ⟨rfl, by rw [herase]; exact htmp, by rw [herase]; exact hout⟩
  · rintro shape rfl hgood
    have hstep : download_secondary_image (NetResult.success shape) tmp out fs
        = (some out, fsRemove tmp (fsCreate out (fsCreate tmp fs))) := by
      simp only [download_secondary_image]
      rw [if_pos hgood]
    rw [hstep]
    have hfs1 : fsCreate tmp fs = ⟨tmp :: fs.files⟩ := by
      unfold fsCreate
      rw [if_neg htmp]
    have hfs2 : fsCreate out ⟨tmp :: fs.files⟩ = ⟨out :: tmp :: fs.files⟩ := by
      unfold fsCreate
      rw [if_neg (by
        intro hmem
        rcases List.mem_cons.mp hmem with he | hm
        · exact hto he.symm
        · exact hout hm)]
    have herase : (fsRemove tmp ⟨out :: tmp :: fs.files⟩).files
        = out :: fs.files := by
      unfold fsRemove
      rw [List.erase_cons_tail]
      · rw [List.erase_cons_head]
      · simp only [beq_iff_eq]
        exact fun he => hto he.symm
    rw [hfs1, hfs2]
    refine ⟨rfl, ?_, ?_⟩
    · rw [herase]
      intro hm
      rcases List.mem_cons.mp hm with he | hm2
      · exact hto he
      · exact htmp hm2
    · rw [herase]
      exact List.mem_cons_self _ _

/-- Claim C9, witness: a successful fetch of a two-layer raster from
an empty file system returns the output path, creates the output file
and removes the temporary FITS file. -/
theorem c9_fetch_failure_atomicity_witness :
    (['t'] : Str) ≠ ['o']
    ∧ (download_secondary_image (NetResult.success [2, 512, 512]) ['t'] ['o']
        ⟨[]⟩).1 = some ['o']
    ∧ ['t'] ∉ (download_secondary_image (NetResult.success [2, 512, 512]) ['t']
        ['o'] ⟨[]⟩).2.files
    ∧ ['o'] ∈ (download_secondary_image (NetResult.success [2, 512, 512]) ['t']
        ['o'] ⟨[]⟩).2.files := by
  have h := (c9_fetch_failure_atomicity (NetResult.success [2, 512, 512]) ['t']
    ['o'] ⟨[]⟩ (by decide) (by simp) (by simp)).2.2 [2, 512, 512] rfl
    (by decide)
  exact ⟨by decide, h.1, h.2.1, h.2.2⟩
